import Mathlib

/-!
Shallow embedding of the NCrystal typed configuration-variable subsystem
(`NCCfgVars.hh`, `NCTypes.cc`).

Modelling conventions:
* C++ strings (`StrView`, `std::string`) are `List Char`.
* C++ `double` values are `ℚ`: the validators only compare and return values
  (no arithmetic), so rational stand-ins mirror the branch structure exactly.
  Floating-point constants are taken at their literal values.
* C++ `int64_t` values are `Int` (validators only compare, no overflow).
* Code throwing `BadInput` is embedded as `Except`-returning functions; the
  error payloads carry the data streamed into the C++ message.
-/

namespace NCrystal

namespace Cfg

/-- Whitespace set used by the `StrView` trimming/splitting helpers
(space, tab, newline, carriage return). -/
def isWS (c : Char) : Bool :=
  c == ' ' || c == '\t' || c == '\n' || c == '\r'

/-- Split a character list at every occurrence of `sep` (separators are
dropped; empty fields are kept, as in `StrView::split`). -/
def splitCh (sep : Char) : List Char → List (List Char)
  | [] => [[]]
  | c :: rest =>
    match splitCh sep rest with
    | [] => [[]]
    | p :: ps => if c = sep then [] :: p :: ps else (c :: p) :: ps

/-- Remove leading and trailing whitespace (`StrView::trimmed`). -/
def trim (l : List Char) : List Char :=
  ((l.dropWhile isWS).reverse.dropWhile isWS).reverse

/-- `StrView::splitTrimmedNoEmpty(sep)`: split at `sep`, trim every part and
discard the parts that are then empty. -/
def splitTrimmedNoEmpty (sep : Char) (l : List Char) : List (List Char) :=
  ((splitCh sep l).map trim).filter (· ≠ [])

/-- Join parts with a separator between consecutive parts (`joinstr`). -/
def joinstr (sep : List Char) : List (List Char) → List Char
  | [] => []
  | [p] => p
  | p :: q :: ps => p ++ sep ++ joinstr sep (q :: ps)

/-- Helper for splitting on a character class: `cur` accumulates the current
token in reverse. -/
def splitClassAux (p : Char → Bool) (cur : List Char) : List Char → List (List Char)
  | [] => if cur = [] then [] else [cur.reverse]
  | c :: rest =>
    if p c then
      (if cur = [] then splitClassAux p [] rest
       else cur.reverse :: splitClassAux p [] rest)
    else splitClassAux p (c :: cur) rest

/-- `StrView::split()` with no arguments: split into the maximal runs of
non-whitespace characters (no empty parts). -/
def splitWS (l : List Char) : List (List Char) :=
  splitClassAux isWS [] l

deriving instance DecidableEq for Except

/-- The single error kind of the subsystem: every validator failure is a
thrown `BadInput` exception. -/
inductive BadInput where
  | badInput
deriving DecidableEq, Repr

/-- Value of the C++ `double` constant `kPi` (the IEEE-754 double nearest π),
given exactly as a rational. -/
def kPi : ℚ := 884279719003555 / 281474976710656

/-- `kPiHalf = kPi/2` (exact in double arithmetic). -/
def kPiHalf : ℚ := kPi / 2

/-- `vardef_temp::value_validate`: accepts the sentinel `-1.0` and the range
`[0.001, 1e6]`, rejects everything else. -/
def vardef_temp_validate (value : ℚ) : Except BadInput ℚ :=
  if ¬ ( value = -1 ∨ ( value ≥ 1/1000 ∧ value ≤ 1000000 ) ) then
    .error .badInput
  else
    .ok value

/-- `vardef_dcutoff::value_validate`: maps `-1` and `0` to `0` (legacy
backwards compatibility), otherwise requires `value ∈ [1e-3, 1e5]`. -/
def vardef_dcutoff_validate (value : ℚ) : Except BadInput ℚ :=
  if value = -1 ∨ value = 0 then
    .ok 0
  else if ¬ (value > 0) then
    .error .badInput
  else if ¬ (value ≥ 1/1000 ∧ value ≤ 100000) then
    .error .badInput
  else
    .ok value

/-- `vardef_dcutoffup::value_validate`: requires `value ≥ 0`. -/
def vardef_dcutoffup_validate (value : ℚ) : Except BadInput ℚ :=
  if ¬ (value ≥ 0) then .error .badInput else .ok value

/-- `vardef_sccutoff::value_validate`: requires `value ≥ 0`. -/
def vardef_sccutoff_validate (value : ℚ) : Except BadInput ℚ :=
  if ¬ (value ≥ 0) then .error .badInput else .ok value

/-- `vardef_mos::value_validate`: requires `value ∈ (0, kPiHalf]`. -/
def vardef_mos_validate (value : ℚ) : Except BadInput ℚ :=
  if ¬ (value > 0) ∨ value > kPiHalf then .error .badInput else .ok value

/-- `vardef_dirtol::value_validate`: requires `value ∈ (0, kPi]`. -/
def vardef_dirtol_validate (value : ℚ) : Except BadInput ℚ :=
  if ¬ (value > 0 ∧ value ≤ kPi) then .error .badInput else .ok value

/-- `vardef_mosprec::value_validate`: requires `value ∈ [1e-7, 1e-1]`. -/
def vardef_mosprec_validate (value : ℚ) : Except BadInput ℚ :=
  if ¬ (value ≥ 1/10000000) ∨ value > 1/10 then .error .badInput else .ok value

/-- `vardef_vdoslux::value_validate`: requires an integer in `[0, 5]`. -/
def vardef_vdoslux_validate (value : Int) : Except BadInput Int :=
  if value < 0 ∨ value > 5 then .error .badInput else .ok value

/-- `vardef_lcmode::value_validate`: requires an integer in
`[-4000000000, 4000000000]`. -/
def vardef_lcmode_validate (value : Int) : Except BadInput Int :=
  if value < -4000000000 ∨ value > 4000000000 then .error .badInput
  else .ok value

/-- The restricted character set accepted by `vardef_inelas::str2val`. -/
def inelasCharset : List Char := "abcdefghijklmnopqrstuvwxyz_0123456789".toList

/-- `vardef_inelas::str2val`: rejects empty tokens and tokens outside the
restricted character set; canonicalises the four disable spellings to `"0"`;
returns every other token unchanged. -/
def inelas_str2val (sv : List Char) : Except BadInput (List Char) :=
  if sv.isEmpty || !(sv.all (fun c => inelasCharset.contains c)) then
    .error .badInput
  else if sv = "none".toList ∨ sv = "0".toList ∨ sv = "sterile".toList
          ∨ sv = "false".toList then
    .ok ['0']
  else
    .ok sv

/-- One entry of the `varlist` table (only the name is needed by the
properties below; the full C++ `VarInfo` also carries group, defaults and the
validator hooks modelled separately above). -/
structure VarInfo where
  name : String
deriving DecidableEq, Repr

/-- The `varlist` registry array, in source order. -/
def varlist : List VarInfo :=
  [ ⟨"absnfactory"⟩, ⟨"atomdb"⟩, ⟨"coh_elas"⟩, ⟨"dcutoff"⟩, ⟨"dcutoffup"⟩,
    ⟨"dir1"⟩, ⟨"dir2"⟩, ⟨"dirtol"⟩, ⟨"incoh_elas"⟩, ⟨"inelas"⟩,
    ⟨"infofactory"⟩, ⟨"lcaxis"⟩, ⟨"lcmode"⟩, ⟨"mos"⟩, ⟨"mosprec"⟩,
    ⟨"sans"⟩, ⟨"scatfactory"⟩, ⟨"sccutoff"⟩, ⟨"temp"⟩, ⟨"vdoslux"⟩ ]

/-- Modelled from the spec: `constexpr_name2Idx` (declared in the missing
`NCCfgTypes.hh`) is the "deterministic, collision-checked mapping from a
variable's textual name to a dense integer identifier": the index of the
entry with the given name in the registry table. -/
def constexpr_varName2Idx (name : String) : Nat :=
  varlist.findIdx (fun v => v.name == name)

/-- `varName(varid)`: the registry name of an identifier
(`varlist[enumAsInt(varid)].name()`). -/
def varName (varid : Nat) : String :=
  (varlist.getD varid ⟨""⟩).name

/-- Character accepted inside a factory name by
`FactNameRequest::Parser::doParse` (`isAlphaNumeric(e) || e=='_' || e=='-'`). -/
def isValidFactNameChar (c : Char) : Bool :=
  c.isAlphanum || c == '_' || c == '-'

/-- The `checkValidFactoryName` lambda of `doParse` as a predicate: non-empty
and made only of alphanumerics, `_` and `-`. -/
def validFactName (n : List Char) : Bool :=
  !n.isEmpty && n.all isValidFactNameChar

/-- Errors thrown by the `FactNameRequest` parser; the payloads are the
strings streamed into the corresponding `BadInput` messages. -/
inductive FactParseErr where
  | badFactoryName : List Char → FactParseErr
  | multipleEntries : List Char → List Char → FactParseErr
  | selfExcluded : List Char → FactParseErr
deriving DecidableEq, Repr

/-- `FactNameRequest`: an optional required factory name (`m_specific`, empty
string means none) plus a list of excluded factory names. -/
structure FactNameRequest where
  m_specific : List Char
  m_excluded : List (List Char)
deriving DecidableEq, Repr

/-- `FactNameRequest::hasSpecificRequest`. -/
def FactNameRequest.hasSpecificRequest (r : FactNameRequest) : Bool :=
  !r.m_specific.isEmpty

/-- `FactNameRequest::specificRequest`. -/
def FactNameRequest.specificRequest (r : FactNameRequest) : List Char :=
  r.m_specific

/-- `FactNameRequest::excludes`: linear search of the excluded list. -/
def FactNameRequest.excludes (r : FactNameRequest) (fn : List Char) : Bool :=
  decide (fn ∈ r.m_excluded)

/-- `FactNameRequest::withAdditionalExclude`: returns a copy with `factname`
appended to the excluded list unless it is already there.  (Note: the source
performs no check against `m_specific` here.) -/
def FactNameRequest.withAdditionalExclude (r : FactNameRequest)
    (factname : List Char) : FactNameRequest :=
  if r.excludes factname then r
  else { r with m_excluded := r.m_excluded ++ [factname] }

/-- `FactNameRequest::withNoSpecificRequest`: clears `m_specific`, keeps the
excluded list. -/
def FactNameRequest.withNoSpecificRequest (r : FactNameRequest) : FactNameRequest :=
  { m_specific := [], m_excluded := r.m_excluded }

/-- One iteration of the entry loop of `FactNameRequest::Parser::doParse`. -/
def doParseStep (res : FactNameRequest) (e : List Char) :
    Except FactParseErr FactNameRequest :=
  if e.head? = some '!' then
    let exlname := trim (e.drop 1)
    if validFactName exlname then
      if res.excludes exlname then .ok res
      else .ok { res with m_excluded := res.m_excluded ++ [exlname] }
    else .error (.badFactoryName exlname)
  else
    if validFactName e then
      if ¬ res.m_specific.isEmpty then
        .error (.multipleEntries res.m_specific e)
      else .ok { res with m_specific := e }
    else .error (.badFactoryName e)

/-- The entry loop of `doParse`, with thrown errors propagating out. -/
def doParseLoop (res : FactNameRequest) :
    List (List Char) → Except FactParseErr FactNameRequest
  | [] => .ok res
  | e :: rest =>
    match doParseStep res e with
    | .error err => .error err
    | .ok res' => doParseLoop res' rest

/-- `FactNameRequest::Parser::doParse`: run the entry loop over the
`'@'`-separated, trimmed, non-empty entries, then reject a specific request
that is also excluded. -/
def doParse (sv : List Char) : Except FactParseErr FactNameRequest :=
  match doParseLoop ⟨[], []⟩ (splitTrimmedNoEmpty '@' sv) with
  | .error err => .error err
  | .ok res =>
    if ¬ res.m_specific.isEmpty ∧ res.excludes res.m_specific then
      .error (.selfExcluded res.m_specific)
    else
      .ok res

/-- Modelled from the spec: `FactNameRequest::to_string` (implemented in a
repository file not shown) renders the specific request followed by the
excluded names prefixed with `!`, joined with `@`, "preserved in round-trip
rendering by insertion order". -/
def FactNameRequest.to_string (r : FactNameRequest) : List Char :=
  joinstr ['@']
    ((if r.m_specific.isEmpty then [] else [r.m_specific])
      ++ r.m_excluded.map (fun e => '!' :: e))

/-- Replace `':'` by `' '` inside an atomdb line
(`strreplace(line, ":", " ")`, single-character pattern). -/
def repColon (c : Char) : Char :=
  if c = ':' then ' ' else c

/-- The whitespace-split word list of an atomdb line after `':'`
replacement. -/
def atomdbLineParts (line : List Char) : List (List Char) :=
  splitWS (line.map repColon)

/-- The normalised form of an atomdb line: its words re-joined with `':'`. -/
def normLine (line : List Char) : List Char :=
  joinstr [':'] (atomdbLineParts line)

/-- Splitting on a general character class (used to state which inputs an
atomdb line normalisation identifies: its maximal runs of characters that are
neither whitespace nor `':'`). -/
def lineTokens (line : List Char) : List (List Char) :=
  splitClassAux (fun c => isWS c || c == ':') [] line

/-- Errors thrown by `vardef_atomdb::str2val`; both are `BadInput`
conditions, the first wrapping a `validateAtomDBLine` failure for the given
normalised line. -/
inductive AtomDbErr where
  | invalidLine : List Char → AtomDbErr
  | nodefaultsNotFirst
deriving DecidableEq, Repr

/-- The token `"nodefaults"`. -/
def nodefaultsTok : List Char := "nodefaults".toList

/-- The line loop of `vardef_atomdb::str2val`, with `acc` the `result` string
built so far.  `vcheck` stands for `validateAtomDBLine` (whose implementation
is in a repository file not shown): it receives the word list of the
normalised line, exactly what `split2(part_joined,0,':')` reconstructs, since
the words contain neither `':'` nor whitespace. -/
def atomdbFold (vcheck : List (List Char) → Bool) (acc : List Char) :
    List (List Char) → Except AtomDbErr (List Char)
  | [] => .ok acc
  | line :: rest =>
    if (atomdbLineParts line).isEmpty then atomdbFold vcheck acc rest
    else if ¬ vcheck (atomdbLineParts line) then .error (.invalidLine (normLine line))
    else if normLine line = nodefaultsTok ∧ ¬ acc.isEmpty then .error .nodefaultsNotFirst
    else atomdbFold vcheck
      (if acc.isEmpty then normLine line else acc ++ '@' :: normLine line) rest

/-- `vardef_atomdb::str2val`: split the input on `'@'` into trimmed non-empty
lines and run the line loop. -/
def atomdb_str2val (vcheck : List (List Char) → Bool) (sv : List Char) :
    Except AtomDbErr (List Char) :=
  atomdbFold vcheck [] (splitTrimmedNoEmpty '@' sv)

/-- Whether an `Except` result is an error (a thrown `BadInput`). -/
def isErr {ε α : Type} : Except ε α → Bool
  | .error _ => true
  | .ok _ => false

/-- The construction invariant claimed for `FactNameRequest`: a present
specific request never also appears in the excluded set. -/
def factReqInvariant (r : FactNameRequest) : Prop :=
  r.hasSpecificRequest = true → r.excludes r.specificRequest = false

/-- Whether a `doParse` entry is an exclusion entry (starts with `'!'`). -/
def isExcludedEntry (e : List Char) : Bool :=
  e.head? == some '!'

/-- Whether a `doParse` entry passes its syntax check: for exclusion entries
the trimmed remainder must be a valid factory name, otherwise the entry
itself must be. -/
def entryValid (e : List Char) : Bool :=
  if isExcludedEntry e then validFactName (trim (e.drop 1)) else validFactName e

/-- A 3-component vector of an arbitrary scalar type. -/
structure Vec3 (α : Type) where
  c1 : α
  c2 : α
  c3 : α
deriving DecidableEq, Repr

/-- The crystal-frame alternatives of the `Variant<CrystalAxis,HKLPoint>`
member of `OrientDir`. -/
inductive CrysFrame (α : Type) where
  | axis : Vec3 α → CrysFrame α
  | hklNormal : Vec3 α → CrysFrame α
deriving DecidableEq, Repr

/-- `OrientDir`: crystal-frame direction (possibly empty variant) plus a
lab-frame vector. -/
structure OrientDir (α : Type) where
  crystal : Option (CrysFrame α)
  lab : Vec3 α
deriving DecidableEq, Repr

/-- `operator<<(std::ostream&, const OrientDir&)` from `NCTypes.cc`,
parametrised by the scalar formatting function `fm` standing for `fmt`. -/
def renderOrientDir {α : Type} (fm : α → List Char) (od : OrientDir α) : List Char :=
  (match od.crystal with
   | some (.axis v) =>
     "@crys:".toList ++ fm v.c1 ++ [','] ++ fm v.c2 ++ [','] ++ fm v.c3
   | some (.hklNormal v) =>
     "@crys_hkl:".toList ++ fm v.c1 ++ [','] ++ fm v.c2 ++ [','] ++ fm v.c3
   | none => "@crys:<MISSING>".toList)
  ++ "@lab:".toList ++ fm od.lab.c1 ++ [','] ++ fm od.lab.c2 ++ [','] ++ fm od.lab.c3

/-! ## Theorems -/

/-- C10: Stream-rendering an `OrientDir` is total: with a `CrystalAxis`
variant the output is `@crys:` followed by the three components, with an
`HKLPoint` variant it is `@crys_hkl:`, and with an empty variant it is the
placeholder `@crys:<MISSING>`; in every case the output ends with `@lab:`
followed by the three lab-frame components. -/
theorem orientdir_render_total :
    (∀ (α : Type) (fm : α → List Char) (v lab : Vec3 α),
       renderOrientDir fm ⟨some (.axis v), lab⟩ =
         "@crys:".toList ++ fm v.c1 ++ [','] ++ fm v.c2 ++ [','] ++ fm v.c3
           ++ "@lab:".toList ++ fm lab.c1 ++ [','] ++ fm lab.c2 ++ [','] ++ fm lab.c3)
  ∧ (∀ (α : Type) (fm : α → List Char) (v lab : Vec3 α),
       renderOrientDir fm ⟨some (.hklNormal v), lab⟩ =
         "@crys_hkl:".toList ++ fm v.c1 ++ [','] ++ fm v.c2 ++ [','] ++ fm v.c3
           ++ "@lab:".toList ++ fm lab.c1 ++ [','] ++ fm lab.c2 ++ [','] ++ fm lab.c3)
  ∧ (∀ (α : Type) (fm : α → List Char) (lab : Vec3 α),
       renderOrientDir fm ⟨none, lab⟩ =
         "@crys:<MISSING>".toList
           ++ "@lab:".toList ++ fm lab.c1 ++ [','] ++ fm lab.c2 ++ [','] ++ fm lab.c3) :=
  ⟨fun _ _ _ _ => rfl, fun _ _ _ _ => rfl, fun _ _ _ => rfl⟩

/-- C8: for every entry of the `varlist` registry, mapping its name to an
identifier with `constexpr_varName2Idx` and asking the registry for that
identifier's name (`varName`) gives back the original name. -/
theorem varlist_name_roundtrip :
    ∀ v ∈ varlist, varName (constexpr_varName2Idx v.name) = v.name := by
  decide

/-- Witness for `varlist_name_roundtrip` at the registered name `"temp"`. -/
theorem varlist_name_roundtrip_witness :
    varName (constexpr_varName2Idx (VarInfo.mk "temp").name) = (VarInfo.mk "temp").name :=
  varlist_name_roundtrip ⟨"temp"⟩ (by decide)

/-- C9: `vardef_inelas::str2val` canonicalises the four disable spellings
`none`, `0`, `sterile`, `false` to the representative `"0"`; stores any other
token over the restricted character set (exactly the lowercase letters,
digits and underscore, the characters of `inelasCharset`) unchanged; and
rejects the empty token and any token with a character outside that set. -/
theorem inelas_canonicalization :
    (∀ sv, (sv = "none".toList ∨ sv = "0".toList ∨ sv = "sterile".toList
              ∨ sv = "false".toList) →
       inelas_str2val sv = .ok ['0'])
  ∧ (∀ sv, sv ≠ [] → sv.all (fun c => inelasCharset.contains c) = true →
       ¬ (sv = "none".toList ∨ sv = "0".toList ∨ sv = "sterile".toList
            ∨ sv = "false".toList) →
       inelas_str2val sv = .ok sv)
  ∧ (∀ sv, (sv = [] ∨ ¬ sv.all (fun c => inelasCharset.contains c) = true) →
       inelas_str2val sv = .error .badInput) := by
  refine ⟨?_, ?_, ?_⟩
  · rintro sv (rfl | rfl | rfl | rfl) <;> rfl
  · intro sv h1 h2 h3
    unfold inelas_str2val
    rw [if_neg, if_neg h3]
    simp only [Bool.or_eq_true, Bool.not_eq_true', Bool.not_eq_true]
    rintro (he | ha)
    · exact h1 (List.isEmpty_iff.mp he)
    · rw [ha] at h2
      cases h2
  · rintro sv (rfl | h)
    · rfl
    · unfold inelas_str2val
      rw [if_pos]
      simp only [Bool.or_eq_true, Bool.not_eq_true']
      exact Or.inr (Bool.not_eq_true _ ▸ h)

/-- Witness for `inelas_canonicalization`: `"sterile"` collapses to `"0"`,
`"vdosdebye"` is stored unchanged, `"BAD"` is rejected. -/
theorem inelas_canonicalization_witness :
    inelas_str2val "sterile".toList = .ok ['0']
  ∧ inelas_str2val "vdosdebye".toList = .ok "vdosdebye".toList
  ∧ inelas_str2val "BAD".toList = .error .badInput :=
  ⟨inelas_canonicalization.1 _ (by decide),
   inelas_canonicalization.2.1 _ (by decide) (by decide) (by decide),
   inelas_canonicalization.2.2 _ (by decide)⟩

/-- C2: the `dcutoff` validator maps both literal inputs `-1` and `0` to the
canonical stored value `0`; every other accepted input is returned
unchanged; and no other registered validator maps `-1` to `0` (the numeric
validators are listed exhaustively; the remaining registry entries are
boolean, string, vector or orientation valued and have no numeric
validator). -/
theorem dcutoff_legacy_remap_unique :
    vardef_dcutoff_validate (-1) = .ok 0
  ∧ vardef_dcutoff_validate 0 = .ok 0
  ∧ (∀ v x : ℚ, v ≠ -1 → v ≠ 0 → vardef_dcutoff_validate v = .ok x → x = v)
  ∧ vardef_temp_validate (-1) ≠ .ok 0
  ∧ vardef_dcutoffup_validate (-1) ≠ .ok 0
  ∧ vardef_sccutoff_validate (-1) ≠ .ok 0
  ∧ vardef_mos_validate (-1) ≠ .ok 0
  ∧ vardef_dirtol_validate (-1) ≠ .ok 0
  ∧ vardef_mosprec_validate (-1) ≠ .ok 0
  ∧ vardef_vdoslux_validate (-1) ≠ .ok 0
  ∧ vardef_lcmode_validate (-1) ≠ .ok 0 := by
  refine ⟨by norm_num [vardef_dcutoff_validate], by norm_num [vardef_dcutoff_validate],
          ?_, by decide, by decide, by decide, by decide, by decide,
          (by intro h; rw [vardef_mosprec_validate] at h; norm_num at h; cases h),
          by decide, by decide⟩
  intro v x hv hv0 h
  unfold vardef_dcutoff_validate at h
  rw [if_neg (by tauto)] at h
  split_ifs at h
  cases h
  rfl

/-- Witness for `dcutoff_legacy_remap_unique`: the accepted input `7` is
returned unchanged. -/
theorem dcutoff_legacy_remap_unique_witness :
    vardef_dcutoff_validate 7 = .ok 7 ∧ (7 : ℚ) = 7 :=
  ⟨by norm_num [vardef_dcutoff_validate],
   dcutoff_legacy_remap_unique.2.2.1 7 7 (by norm_num) (by norm_num)
     (by norm_num [vardef_dcutoff_validate])⟩

/-- C3 counterexample: `-1` is strictly outside the range `[0.001, 1e6]`,
yet the `temp` validator accepts it (it is the documented sentinel), so the
claim that every value strictly outside the range is rejected is false. -/
theorem temp_validator_accepts_minus_one :
    ((-1 : ℚ) < 1/1000 ∨ (1000000 : ℚ) < -1)
  ∧ vardef_temp_validate (-1) = .ok (-1) := by
  constructor
  · left; norm_num
  · norm_num [vardef_temp_validate]

/-- C3 (amended): the `temp` validator accepts every value in the inclusive
range `[0.001, 1e6]` (boundaries included) unchanged, accepts the documented
sentinel `-1` unchanged, and rejects every other value strictly outside the
range with a `BadInput` error. -/
theorem temp_validator_range :
    (∀ v : ℚ, 1/1000 ≤ v → v ≤ 1000000 → vardef_temp_validate v = .ok v)
  ∧ vardef_temp_validate (1/1000) = .ok (1/1000)
  ∧ vardef_temp_validate 1000000 = .ok 1000000
  ∧ vardef_temp_validate (-1) = .ok (-1)
  ∧ (∀ v : ℚ, v ≠ -1 → (v < 1/1000 ∨ 1000000 < v) →
       vardef_temp_validate v = .error .badInput) := by
  refine ⟨?_, by norm_num [vardef_temp_validate], by norm_num [vardef_temp_validate],
          by norm_num [vardef_temp_validate], ?_⟩
  · intro v h1 h2
    unfold vardef_temp_validate
    rw [if_neg]
    push_neg
    exact Or.inr ⟨h1, h2⟩
  · intro v h1 h2
    unfold vardef_temp_validate
    rw [if_pos]
    push_neg
    refine ⟨h1, fun h3 => ?_⟩
    rcases h2 with h2 | h2
    · exact absurd h3 (not_le.mpr h2)
    · exact h2

/-- Witness for `temp_validator_range`: `293.15`-like interior value `293`
accepted, `0.0009` rejected. -/
theorem temp_validator_range_witness :
    vardef_temp_validate 293 = .ok 293
  ∧ vardef_temp_validate (9/10000) = .error .badInput :=
  ⟨temp_validator_range.1 293 (by norm_num) (by norm_num),
   temp_validator_range.2.2.2.2 (9/10000) (by norm_num) (Or.inl (by norm_num))⟩

/-- C1 counterexample: `doParse "a"` yields a request whose specific name is
`a`, and `withAdditionalExclude "a"` then produces an object (obtained only
through public construction operations) whose specific name is also in its
excluded set, so the claimed invariant fails. -/
theorem factreq_exclude_specific_violation :
    doParse ['a'] = .ok ⟨['a'], []⟩
  ∧ (FactNameRequest.withAdditionalExclude ⟨['a'], []⟩ ['a']).hasSpecificRequest = true
  ∧ (FactNameRequest.withAdditionalExclude ⟨['a'], []⟩ ['a']).excludes
      ((FactNameRequest.withAdditionalExclude ⟨['a'], []⟩ ['a']).specificRequest) = true := by
  decide

/-- C1 (amended): the invariant (a present specific request is never also
excluded) holds for every `doParse` result, is preserved by
`withNoSpecificRequest`, and is preserved by `withAdditionalExclude`
provided the newly excluded name differs from the specific name. -/
theorem factreq_invariant_amended :
    (∀ sv r, doParse sv = .ok r → factReqInvariant r)
  ∧ (∀ r fn, factReqInvariant r → fn ≠ r.m_specific →
       factReqInvariant (r.withAdditionalExclude fn))
  ∧ (∀ r : FactNameRequest, factReqInvariant r.withNoSpecificRequest) := by
  refine ⟨?_, ?_, ?_⟩
  · intro sv r h
    unfold doParse at h
    cases hl : doParseLoop ⟨[], []⟩ (splitTrimmedNoEmpty '@' sv) with
    | error e => rw [hl] at h; cases h
    | ok res =>
      rw [hl] at h
      dsimp only at h
      split_ifs at h with hc
      injection h with h
      subst h
      intro hs
      by_contra hex
      apply hc
      constructor
      · exact fun hemp => by simp [FactNameRequest.hasSpecificRequest, hemp] at hs
      · cases hb : res.excludes res.m_specific
        · exact absurd hb hex
        · rfl
  · intro r fn hinv hfn
    unfold FactNameRequest.withAdditionalExclude
    split_ifs with he
    · exact hinv
    · simp only [factReqInvariant, FactNameRequest.hasSpecificRequest,
        FactNameRequest.specificRequest, FactNameRequest.excludes] at hinv ⊢
      intro hs
      have h1 := hinv hs
      rw [decide_eq_false_iff_not] at h1 ⊢
      rintro hmem
      rcases List.mem_append.mp hmem with hm | hm
      · exact h1 hm
      · exact hfn (List.mem_singleton.mp hm).symm
  · intro r hs
    simp [FactNameRequest.withNoSpecificRequest,
      FactNameRequest.hasSpecificRequest] at hs

/-- Witness for `factreq_invariant_amended`: the request parsed from
`"a@!b"` satisfies the invariant. -/
theorem factreq_invariant_amended_witness :
    factReqInvariant ⟨['a'], [['b']]⟩ :=
  factreq_invariant_amended.1 "a@!b".toList ⟨['a'], [['b']]⟩ (by decide)

/-- Replacing `':'` by `' '` turns the ws-or-colon character class into the
whitespace class. -/
theorem isWS_repColon (c : Char) : isWS (repColon c) = (isWS c || c == ':') := by
  by_cases h : c = ':'
  · subst h
    rfl
  · have h1 : repColon c = c := by simp [repColon, h]
    have h2 : (c == ':') = false := beq_eq_false_iff_ne.mpr h
    rw [h1, h2, Bool.or_false]

/-- Splitting the `':'`-replaced line on whitespace is the same as splitting
the original line on whitespace-or-colon. -/
theorem splitClass_repColon (l : List Char) :
    ∀ cur, splitClassAux isWS cur (l.map repColon)
      = splitClassAux (fun c => isWS c || c == ':') cur l := by
  induction l with
  | nil => intro cur; rfl
  | cons c rest ih =>
    intro cur
    show splitClassAux isWS cur (repColon c :: rest.map repColon) = _
    simp only [splitClassAux]
    rw [isWS_repColon]
    rcases Bool.eq_false_or_eq_true (isWS c || c == ':') with hb | hb
    · rw [if_pos hb, if_pos hb, ih]
    · have hbn : ¬ ((isWS c || c == ':') = true) := by simp [hb]
      rw [if_neg hbn, if_neg hbn]
      have hcne : c ≠ ':' := beq_eq_false_iff_ne.mp (Bool.or_eq_false_iff.mp hb).2
      have h1 : repColon c = c := by simp [repColon, hcne]
      rw [h1, ih]

/-- The word list of an atomdb line equals its ws-or-colon token list. -/
theorem atomdbLineParts_eq_lineTokens (l : List Char) :
    atomdbLineParts l = lineTokens l := by
  unfold atomdbLineParts lineTokens splitWS
  exact splitClass_repColon l []

/-- C6: the atomdb per-line normalisation sends any two lines with the same
maximal runs of non-(whitespace-or-colon) characters — i.e. lines differing
only in `':'` versus whitespace, or in the amount of whitespace — to the
same canonical line; in particular `"H:is:H"` and `"H  is  H"` normalise
identically. -/
theorem atomdb_normalization_canonical :
    (∀ l₁ l₂, lineTokens l₁ = lineTokens l₂ → normLine l₁ = normLine l₂)
  ∧ normLine "H:is:H".toList = normLine "H  is  H".toList := by
  refine ⟨?_, by decide⟩
  intro l₁ l₂ h
  unfold normLine
  rw [atomdbLineParts_eq_lineTokens, atomdbLineParts_eq_lineTokens, h]

/-- Witness for `atomdb_normalization_canonical` at the concrete pair
`"H:is:H"` / `"H  is  H"`. -/
theorem atomdb_normalization_canonical_witness :
    normLine "H:is:H".toList = normLine "H  is  H".toList :=
  atomdb_normalization_canonical.1 _ _ (by decide)

/-- `splitClassAux` never emits an empty token. -/
theorem splitClassAux_ne_nil (pred : Char → Bool) :
    ∀ (l cur : List Char), ∀ p ∈ splitClassAux pred cur l, cur ≠ [] ∨ True → p ≠ [] := by
  intro l
  induction l with
  | nil =>
    intro cur p hp _
    unfold splitClassAux at hp
    split_ifs at hp with hc
    · cases hp
    · rw [List.mem_singleton] at hp
      subst hp
      simpa using hc
  | cons c rest ih =>
    intro cur p hp _
    unfold splitClassAux at hp
    split_ifs at hp with h1 h2
    · exact ih [] p hp (Or.inr trivial)
    · rcases List.mem_cons.mp hp with rfl | hp
      · simpa using h2
      · exact ih [] p hp (Or.inr trivial)
    · exact ih (c :: cur) p hp (Or.inr trivial)

/-- A non-empty word list joins to a non-empty normalised line. -/
theorem normLine_ne_nil (l : List Char) (h : atomdbLineParts l ≠ []) :
    normLine l ≠ [] := by
  unfold normLine
  cases hp : atomdbLineParts l with
  | nil => exact absurd hp h
  | cons p ps =>
    cases ps with
    | nil =>
      have : p ≠ [] :=
        splitClassAux_ne_nil isWS (l.map repColon) [] p
          (by rw [show splitClassAux isWS [] (l.map repColon) = atomdbLineParts l from rfl, hp]
              exact List.mem_singleton.mpr rfl)
          (Or.inr trivial)
      simpa [joinstr] using this
    | cons q ps' =>
      simp [joinstr]

/-- Lines whose word list is empty are skipped by the atomdb fold. -/
theorem atomdbFold_skip (vcheck : List (List Char) → Bool) :
    ∀ (lead : List (List Char)) (acc : List Char) (rest : List (List Char)),
      (∀ x ∈ lead, atomdbLineParts x = []) →
      atomdbFold vcheck acc (lead ++ rest) = atomdbFold vcheck acc rest := by
  intro lead
  induction lead with
  | nil => intro acc rest _; rfl
  | cons x xs ih =>
    intro acc rest h
    have hx : atomdbLineParts x = [] := h x (List.mem_cons_self _ _)
    simp only [List.cons_append, atomdbFold]
    rw [if_pos (by simp [hx])]
    exact ih acc rest (fun y hy => h y (List.mem_cons_of_mem _ hy))

/-- The atomdb fold succeeds on lines that validate and contain no
`nodefaults` line, whatever the non-empty accumulator. -/
theorem atomdbFold_ok (vcheck : List (List Char) → Bool) :
    ∀ (lines : List (List Char)) (acc : List Char),
      (∀ l ∈ lines, atomdbLineParts l ≠ [] → vcheck (atomdbLineParts l) = true) →
      (∀ l ∈ lines, normLine l ≠ nodefaultsTok) →
      acc ≠ [] →
      isErr (atomdbFold vcheck acc lines) = false := by
  intro lines
  induction lines with
  | nil => intro acc _ _ _; rfl
  | cons line rest ih =>
    intro acc hv hn hacc
    simp only [atomdbFold]
    by_cases hp : (atomdbLineParts line).isEmpty
    · rw [if_pos hp]
      exact ih acc (fun x hx => hv x (List.mem_cons_of_mem _ hx))
        (fun x hx => hn x (List.mem_cons_of_mem _ hx)) hacc
    · rw [if_neg hp]
      have hvl : vcheck (atomdbLineParts line) = true :=
        hv line (List.mem_cons_self _ _) (by simpa [List.isEmpty_iff] using hp)
      rw [if_neg (by simp [hvl]),
          if_neg (fun hcon => hn line (List.mem_cons_self _ _) hcon.1)]
      apply ih _ (fun x hx => hv x (List.mem_cons_of_mem _ hx))
        (fun x hx => hn x (List.mem_cons_of_mem _ hx))
      split_ifs with hae
      · exact normLine_ne_nil line (by simpa [List.isEmpty_iff] using hp)
      · simp [List.append_ne_nil_of_right_ne_nil]

/-- When a `nodefaults` line follows a line with a non-empty word list (or a
non-empty accumulator), the atomdb fold throws. -/
theorem atomdbFold_nodefaults_err (vcheck : List (List Char) → Bool)
    (l : List Char) (post : List (List Char)) (hl : normLine l = nodefaultsTok) :
    ∀ (lead : List (List Char)) (acc : List Char),
      (acc ≠ [] ∨ ∃ x ∈ lead, atomdbLineParts x ≠ []) →
      isErr (atomdbFold vcheck acc (lead ++ l :: post)) = true := by
  intro lead
  induction lead with
  | nil =>
    intro acc hacc
    have hacc' : acc ≠ [] := by
      rcases hacc with hacc | ⟨x, hx, _⟩
      · exact hacc
      · cases hx
    simp only [List.nil_append, atomdbFold]
    have hp : ¬ ((atomdbLineParts l).isEmpty = true) := by
      intro hp
      rw [List.isEmpty_iff] at hp
      rw [normLine, hp] at hl
      exact absurd hl (by decide)
    rw [if_neg hp]
    by_cases hv : vcheck (atomdbLineParts l) = true
    · rw [if_neg (by simp [hv]),
          if_pos ⟨hl, by simpa [List.isEmpty_iff] using hacc'⟩]
      rfl
    · rw [if_pos (by simpa using hv)]
      rfl
  | cons x xs ih =>
    intro acc hacc
    simp only [List.cons_append, atomdbFold]
    by_cases hpx : (atomdbLineParts x).isEmpty = true
    · rw [if_pos hpx]
      apply ih
      rcases hacc with hacc | ⟨y, hy, hyp⟩
      · exact Or.inl hacc
      · rcases List.mem_cons.mp hy with rfl | hy
        · exact absurd (List.isEmpty_iff.mp hpx) hyp
        · exact Or.inr ⟨y, hy, hyp⟩
    · rw [if_neg hpx]
      by_cases hv : vcheck (atomdbLineParts x) = true
      · rw [if_neg (by simp [hv])]
        by_cases hnd : normLine x = nodefaultsTok ∧ ¬ acc.isEmpty = true
        · rw [if_pos hnd]
          rfl
        · rw [if_neg hnd]
          apply ih
          left
          split_ifs with hae
          · exact normLine_ne_nil x (by simpa [List.isEmpty_iff] using hpx)
          · simp [List.append_ne_nil_of_right_ne_nil]
      · rw [if_pos (by simpa using hv)]
        rfl

/-- C4: an atomdb input whose first line with a non-empty word list
normalises to the single token `nodefaults` parses successfully when every
line validates and no later line is `nodefaults`; and an input in which a
`nodefaults` line occurs after some line with a non-empty word list is
rejected with a `BadInput` error whatever the line validator does. -/
theorem atomdb_nodefaults_rules :
    (∀ (vcheck : List (List Char) → Bool) (sv : List Char)
       (lead : List (List Char)) (l : List Char) (post : List (List Char)),
       splitTrimmedNoEmpty '@' sv = lead ++ l :: post →
       (∀ x ∈ lead, atomdbLineParts x = []) →
       normLine l = nodefaultsTok →
       (∀ x ∈ splitTrimmedNoEmpty '@' sv, atomdbLineParts x ≠ [] →
          vcheck (atomdbLineParts x) = true) →
       (∀ x ∈ post, normLine x ≠ nodefaultsTok) →
       isErr (atomdb_str2val vcheck sv) = false)
  ∧ (∀ (vcheck : List (List Char) → Bool) (sv : List Char)
       (lead : List (List Char)) (l : List Char) (post : List (List Char)),
       splitTrimmedNoEmpty '@' sv = lead ++ l :: post →
       (∃ x ∈ lead, atomdbLineParts x ≠ []) →
       normLine l = nodefaultsTok →
       isErr (atomdb_str2val vcheck sv) = true) := by
  constructor
  · intro vcheck sv lead l post hsplit hlead hl hv hpost
    unfold atomdb_str2val
    rw [hsplit, atomdbFold_skip vcheck lead [] (l :: post) hlead]
    simp only [atomdbFold]
    have hp : ¬ ((atomdbLineParts l).isEmpty = true) := by
      intro hp
      rw [List.isEmpty_iff] at hp
      rw [normLine, hp] at hl
      exact absurd hl (by decide)
    have hmem : l ∈ splitTrimmedNoEmpty '@' sv := by
      rw [hsplit]
      exact List.mem_append_right _ (List.mem_cons_self _ _)
    have hvl : vcheck (atomdbLineParts l) = true :=
      hv l hmem (by simpa [List.isEmpty_iff] using hp)
    rw [if_neg hp, if_neg (by simp [hvl]), if_neg (fun hcon => by simp at hcon),
        if_pos List.isEmpty_nil]
    apply atomdbFold_ok vcheck post (normLine l)
    · intro x hx
      exact hv x (by rw [hsplit]
                     exact List.mem_append_right _ (List.mem_cons_of_mem _ hx))
    · exact hpost
    · rw [hl]
      decide
  · intro vcheck sv lead l post hsplit hex hl
    unfold atomdb_str2val
    rw [hsplit]
    exact atomdbFold_nodefaults_err vcheck l post hl lead [] (Or.inr hex)

/-- Witness for `atomdb_nodefaults_rules`: `"nodefaults@H is H"` parses,
`"H is H@nodefaults"` is rejected (with the trivially accepting line
validator). -/
theorem atomdb_nodefaults_rules_witness :
    isErr (atomdb_str2val (fun _ => true) "nodefaults@H is H".toList) = false
  ∧ isErr (atomdb_str2val (fun _ => true) "H is H@nodefaults".toList) = true :=
  ⟨atomdb_nodefaults_rules.1 (fun _ => true) "nodefaults@H is H".toList
      [] "nodefaults".toList ["H is H".toList]
      (by decide) (by decide) (by decide) (by decide) (by decide),
   atomdb_nodefaults_rules.2 (fun _ => true) "H is H@nodefaults".toList
      ["H is H".toList] "nodefaults".toList []
      (by decide) (by decide) (by decide)⟩

/-- A valid factory name is non-empty. -/
theorem validFactName_ne_nil {n : List Char} (h : validFactName n = true) :
    n ≠ [] := by
  intro he
  subst he
  exact absurd h (by decide)

/-- Once a specific request is held, the entry loop fails at the next
non-excluded entry (all entries being syntactically valid), naming the held
specific request and that entry. -/
theorem doParseLoop_second_entry (b : List Char) :
    ∀ (entries : List (List Char)) (res : FactNameRequest) (post : List (List Char)),
      res.m_specific ≠ [] →
      (∀ e ∈ entries, entryValid e = true) →
      entries.filter (fun e => !(isExcludedEntry e)) = b :: post →
      doParseLoop res entries = .error (.multipleEntries res.m_specific b) := by
  intro entries
  induction entries with
  | nil => intro res post _ _ hfil; cases hfil
  | cons e rest ih =>
    intro res post hspec hval hfil
    have hv := hval e (List.mem_cons_self _ _)
    rw [List.filter_cons] at hfil
    by_cases hex : isExcludedEntry e = true
    · rw [if_neg (by simp [hex])] at hfil
      have hhead : e.head? = some '!' := eq_of_beq hex
      have hvn : validFactName (trim (e.drop 1)) = true := by
        unfold entryValid at hv
        rwa [if_pos hex] at hv
      simp only [doParseLoop, doParseStep]
      rw [if_pos hhead, if_pos hvn]
      split_ifs with hexc
      · exact ih res post hspec (fun x hx => hval x (List.mem_cons_of_mem _ hx)) hfil
      · exact ih _ post hspec (fun x hx => hval x (List.mem_cons_of_mem _ hx)) hfil
    · rw [if_pos (by simp [hex])] at hfil
      injection hfil with h1 h2
      subst h1
      have hhead : ¬ (e.head? = some '!') := fun hh => hex (by
        unfold isExcludedEntry
        rw [hh]
        rfl)
      have hvn : validFactName e = true := by
        unfold entryValid at hv
        rwa [if_neg hex] at hv
      simp only [doParseLoop, doParseStep]
      rw [if_neg hhead, if_pos hvn,
          if_pos (fun hh => hspec (List.isEmpty_iff.mp hh))]

/-- With no specific request yet, two non-excluded entries among valid
entries make the loop fail naming the first two of them. -/
theorem doParseLoop_two_entries (a b : List Char) :
    ∀ (entries : List (List Char)) (res : FactNameRequest) (post : List (List Char)),
      res.m_specific = [] →
      (∀ e ∈ entries, entryValid e = true) →
      entries.filter (fun e => !(isExcludedEntry e)) = a :: b :: post →
      doParseLoop res entries = .error (.multipleEntries a b) := by
  intro entries
  induction entries with
  | nil => intro res post _ _ hfil; cases hfil
  | cons e rest ih =>
    intro res post hspec hval hfil
    have hv := hval e (List.mem_cons_self _ _)
    rw [List.filter_cons] at hfil
    by_cases hex : isExcludedEntry e = true
    · rw [if_neg (by simp [hex])] at hfil
      have hhead : e.head? = some '!' := eq_of_beq hex
      have hvn : validFactName (trim (e.drop 1)) = true := by
        unfold entryValid at hv
        rwa [if_pos hex] at hv
      simp only [doParseLoop, doParseStep]
      rw [if_pos hhead, if_pos hvn]
      split_ifs with hexc
      · exact ih res post hspec (fun x hx => hval x (List.mem_cons_of_mem _ hx)) hfil
      · exact ih _ post hspec (fun x hx => hval x (List.mem_cons_of_mem _ hx)) hfil
    · rw [if_pos (by simp [hex])] at hfil
      injection hfil with h1 h2
      subst h1
      have hhead : ¬ (e.head? = some '!') := fun hh => hex (by
        unfold isExcludedEntry
        rw [hh]
        rfl)
      have hvn : validFactName e = true := by
        unfold entryValid at hv
        rwa [if_neg hex] at hv
      simp only [doParseLoop, doParseStep]
      rw [if_neg hhead, if_pos hvn,
          if_neg (fun hh => hh (by rw [hspec]; rfl))]
      exact doParseLoop_second_entry b rest { res with m_specific := e }
        post (validFactName_ne_nil hvn)
        (fun x hx => hval x (List.mem_cons_of_mem _ hx)) h2

/-- The entry loop never produces a `multipleEntries` error when the number
of non-excluded entries, plus one for an already-held specific request, is
at most one. -/
theorem doParseLoop_single_entry :
    ∀ (entries : List (List Char)) (res : FactNameRequest) (a b : List Char),
      (entries.filter (fun e => !(isExcludedEntry e))).length
        + (if res.m_specific = [] then 0 else 1) ≤ 1 →
      doParseLoop res entries ≠ .error (.multipleEntries a b) := by
  intro entries
  induction entries with
  | nil => intro res a b _ h; cases h
  | cons e rest ih =>
    intro res a b hcount
    rw [List.filter_cons] at hcount
    simp only [doParseLoop, doParseStep]
    by_cases hex : isExcludedEntry e = true
    · rw [if_neg (by simp [hex])] at hcount
      have hhead : e.head? = some '!' := eq_of_beq hex
      rw [if_pos hhead]
      split_ifs with hvn hexc
      · exact ih res a b hcount
      · exact ih _ a b hcount
      · intro h
        injection h with h
        cases h
    · rw [if_pos (by simp [hex])] at hcount
      have hhead : ¬ (e.head? = some '!') := fun hh => hex (by
        unfold isExcludedEntry
        rw [hh]
        rfl)
      rw [if_neg hhead]
      have hspec : res.m_specific = [] := by
        by_contra hs
        rw [if_neg hs, List.length_cons] at hcount
        omega
      rw [if_pos hspec, List.length_cons] at hcount
      split_ifs with hvn hne
      · apply ih
        rw [if_neg (validFactName_ne_nil hvn)]
        omega
      · exact absurd (List.isEmpty_iff.mpr hspec) hne
      · intro h
        injection h with h
        cases h

/-- C5 counterexample: the input `"?@a@b"` has three non-excluded
`'@'`-separated entries, yet `doParse` raises the invalid-factory-name error
for `"?"`, whose message does not name the conflicting entries `a` and
`b`. -/
theorem factreq_invalid_name_masks_conflict :
    ((splitTrimmedNoEmpty '@' "?@a@b".toList).filter
        (fun e => !(isExcludedEntry e))).length = 3
  ∧ doParse "?@a@b".toList = .error (.badFactoryName ['?']) := by
  decide

/-- C5 (amended): when every `'@'`-separated entry is syntactically valid
and at least two of them are non-excluded, `doParse` raises the
`multipleEntries` error naming the first two non-excluded entries; and with
at most one non-excluded entry a `multipleEntries` error is never raised
(whatever the entries look like). -/
theorem factreq_multiple_entries_error :
    (∀ (sv a b : List Char) (post : List (List Char)),
       (∀ e ∈ splitTrimmedNoEmpty '@' sv, entryValid e = true) →
       (splitTrimmedNoEmpty '@' sv).filter (fun e => !(isExcludedEntry e))
         = a :: b :: post →
       doParse sv = .error (.multipleEntries a b))
  ∧ (∀ (sv a b : List Char),
       ((splitTrimmedNoEmpty '@' sv).filter (fun e => !(isExcludedEntry e))).length ≤ 1 →
       doParse sv ≠ .error (.multipleEntries a b)) := by
  constructor
  · intro sv a b post hval hfil
    unfold doParse
    rw [doParseLoop_two_entries a b (splitTrimmedNoEmpty '@' sv) ⟨[], []⟩ post rfl
      hval hfil]
  · intro sv a b hcount
    unfold doParse
    cases hl : doParseLoop ⟨[], []⟩ (splitTrimmedNoEmpty '@' sv) with
    | error err =>
      have hne := doParseLoop_single_entry (splitTrimmedNoEmpty '@' sv) ⟨[], []⟩ a b
        (by simpa using hcount)
      rw [hl] at hne
      intro h
      injection h with h
      exact hne (by rw [h])
    | ok res =>
      dsimp only
      split_ifs
      · intro h
        injection h with h
        cases h
      · intro h
        cases h

/-- Witness for `factreq_multiple_entries_error`: `"a@b"` fails naming both
`a` and `b`; `"x@!y"` never raises a `multipleEntries` error. -/
theorem factreq_multiple_entries_error_witness :
    doParse "a@b".toList = .error (.multipleEntries ['a'] ['b'])
  ∧ doParse "x@!y".toList ≠ .error (.multipleEntries ['u'] ['v']) :=
  ⟨factreq_multiple_entries_error.1 "a@b".toList ['a'] ['b'] []
      (by decide) (by decide),
   factreq_multiple_entries_error.2 "x@!y".toList ['u'] ['v'] (by decide)⟩

/-- Valid factory-name characters are not whitespace. -/
theorem validChar_not_ws {c : Char} (h : isValidFactNameChar c = true) :
    isWS c = false := by
  cases hw : isWS c
  · rfl
  · exfalso
    unfold isWS at hw
    rcases (by simpa using hw : ((c = ' ' ∨ c = '\t') ∨ c = '\n') ∨ c = '\r')
      with ((rfl | rfl) | rfl) | rfl <;> exact absurd h (by decide)

/-- Valid factory-name characters are not the entry separator. -/
theorem validChar_ne_at {c : Char} (h : isValidFactNameChar c = true) :
    c ≠ '@' := by
  intro hc
  subst hc
  exact absurd h (by decide)

/-- Valid factory-name characters are not the exclusion marker. -/
theorem validChar_ne_bang {c : Char} (h : isValidFactNameChar c = true) :
    c ≠ '!' := by
  intro hc
  subst hc
  exact absurd h (by decide)

/-- All characters of a valid factory name are valid name characters. -/
theorem validFactName_all {n : List Char} (h : validFactName n = true) :
    ∀ c ∈ n, isValidFactNameChar c = true := by
  unfold validFactName at h
  rw [Bool.and_eq_true] at h
  exact List.all_eq_true.mp h.2

/-- `dropWhile` is the identity when the predicate never holds. -/
theorem dropWhile_eq_self_of_false (l : List Char)
    (h : ∀ c ∈ l, isWS c = false) : l.dropWhile isWS = l := by
  cases l with
  | nil => rfl
  | cons c t =>
    rw [List.dropWhile_cons, h c (List.mem_cons_self _ _)]
    simp

/-- Trimming is the identity on whitespace-free strings. -/
theorem trim_eq_self {l : List Char} (h : ∀ c ∈ l, isWS c = false) :
    trim l = l := by
  unfold trim
  rw [dropWhile_eq_self_of_false l h,
      dropWhile_eq_self_of_false l.reverse (fun c hc => h c (List.mem_reverse.mp hc)),
      List.reverse_reverse]

/-- `splitCh` never returns the empty list of fields. -/
theorem splitCh_ne_nil (sep : Char) : ∀ l, splitCh sep l ≠ [] := by
  intro l
  cases l with
  | nil => exact fun h => by cases h
  | cons c t =>
    simp only [splitCh]
    cases splitCh sep t with
    | nil => exact fun h => by cases h
    | cons p ps =>
      split_ifs <;> exact fun h => by cases h

/-- Splitting a separator-free string yields the single field. -/
theorem splitCh_no_sep (sep : Char) :
    ∀ l : List Char, sep ∉ l → splitCh sep l = [l] := by
  intro l
  induction l with
  | nil => intro _; rfl
  | cons c t ih =>
    intro h
    have hc : c ≠ sep := fun hh => h (hh ▸ List.mem_cons_self _ _)
    have ht : sep ∉ t := fun hh => h (List.mem_cons_of_mem _ hh)
    simp only [splitCh]
    rw [ih ht]
    dsimp only
    rw [if_neg hc]

/-- Splitting at the first separator after a separator-free field. -/
theorem splitCh_append (sep : Char) :
    ∀ (p t : List Char), sep ∉ p →
      splitCh sep (p ++ sep :: t) = p :: splitCh sep t := by
  intro p
  induction p with
  | nil =>
    intro t _
    simp only [List.nil_append, splitCh]
    cases hq : splitCh sep t with
    | nil => exact absurd hq (splitCh_ne_nil sep t)
    | cons q qs =>
      dsimp only
      rw [if_pos trivial]
  | cons c p' ih =>
    intro t h
    have hc : c ≠ sep := fun hh => h (hh ▸ List.mem_cons_self _ _)
    have hp' : sep ∉ p' := fun hh => h (List.mem_cons_of_mem _ hh)
    show splitCh sep (c :: (p' ++ sep :: t)) = _
    simp only [splitCh]
    rw [ih t hp']
    dsimp only
    rw [if_neg hc]

/-- Splitting undoes joining for non-empty, separator-free field lists. -/
theorem splitCh_joinstr (sep : Char) :
    ∀ ps : List (List Char), ps ≠ [] → (∀ p ∈ ps, sep ∉ p) →
      splitCh sep (joinstr [sep] ps) = ps := by
  intro ps
  induction ps with
  | nil => intro h _; cases h rfl
  | cons p qs ih =>
    intro _ hns
    cases qs with
    | nil => exact splitCh_no_sep sep p (hns p (List.mem_cons_self _ _))
    | cons q qs' =>
      have hj : joinstr [sep] (p :: q :: qs')
          = p ++ sep :: joinstr [sep] (q :: qs') := by
        simp [joinstr]
      rw [hj, splitCh_append sep p _ (hns p (List.mem_cons_self _ _)),
          ih (by simp) (fun x hx => hns x (List.mem_cons_of_mem _ hx))]

/-- `splitTrimmedNoEmpty` undoes joining with `'@'` when every field is
non-empty and free of whitespace and separators. -/
theorem splitTrimmedNoEmpty_joinstr (ps : List (List Char)) (hne : ps ≠ [])
    (h : ∀ p ∈ ps, p ≠ [] ∧ ∀ c ∈ p, isWS c = false ∧ c ≠ '@') :
    splitTrimmedNoEmpty '@' (joinstr ['@'] ps) = ps := by
  unfold splitTrimmedNoEmpty
  rw [splitCh_joinstr '@' ps hne
      (fun p hp hc => ((h p hp).2 '@' hc).2 rfl)]
  have hmap : ps.map trim = ps := by
    conv_rhs => rw [← List.map_id ps]
    exact List.map_congr_left
      (fun p hp => trim_eq_self (fun c hc => ((h p hp).2 c hc).1))
  rw [hmap, List.filter_eq_self.mpr (fun p hp => by simpa using (h p hp).1)]

/-- Well-formedness maintained by the entry loop: the specific request (when
present) and all excluded names are valid factory names, and the excluded
list has no duplicates (the loop checks `excludes` before pushing). -/
def wfFNR (r : FactNameRequest) : Prop :=
  (r.m_specific = [] ∨ validFactName r.m_specific = true)
  ∧ (∀ e ∈ r.m_excluded, validFactName e = true)
  ∧ r.m_excluded.Nodup

/-- The entry loop preserves well-formedness. -/
theorem doParseLoop_wf :
    ∀ (entries : List (List Char)) (res r : FactNameRequest),
      wfFNR res → doParseLoop res entries = .ok r → wfFNR r := by
  intro entries
  induction entries with
  | nil =>
    intro res r hw h
    injection h with h
    rwa [← h]
  | cons e rest ih =>
    intro res r hw h
    simp only [doParseLoop, doParseStep] at h
    by_cases h1 : e.head? = some '!'
    · rw [if_pos h1] at h
      by_cases h2 : validFactName (trim (e.drop 1)) = true
      · rw [if_pos h2] at h
        by_cases h3 : res.excludes (trim (e.drop 1)) = true
        · rw [if_pos h3] at h
          dsimp only at h
          exact ih res r hw h
        · rw [if_neg h3] at h
          dsimp only at h
          have hw' : wfFNR { res with m_excluded := res.m_excluded ++ [trim (e.drop 1)] } := by
            refine ⟨hw.1, ?_, ?_⟩
            · intro x hx
              rcases List.mem_append.mp hx with hx | hx
              · exact hw.2.1 x hx
              · rw [List.mem_singleton] at hx
                subst hx
                exact h2
            · refine List.Nodup.append hw.2.2 (List.nodup_singleton _) ?_
              intro x hx hx'
              rw [List.mem_singleton] at hx'
              subst hx'
              exact h3 (by simpa [FactNameRequest.excludes] using hx)
          exact ih { res with m_excluded := res.m_excluded ++ [trim (e.drop 1)] } r hw' h
      · rw [if_neg h2] at h
        dsimp only at h
        cases h
    · rw [if_neg h1] at h
      by_cases h4 : validFactName e = true
      · rw [if_pos h4] at h
        by_cases h5 : ¬ res.m_specific.isEmpty = true
        · rw [if_pos h5] at h
          dsimp only at h
          cases h
        · rw [if_neg h5] at h
          dsimp only at h
          exact ih { res with m_specific := e } r ⟨Or.inr h4, hw.2.1, hw.2.2⟩ h
      · rw [if_neg h4] at h
        dsimp only at h
        cases h

/-- A successful `doParse` yields a well-formed request whose specific name
(when present) is not excluded. -/
theorem doParse_wf (sv : List Char) (r : FactNameRequest)
    (h : doParse sv = .ok r) :
    wfFNR r ∧ (r.m_specific = [] ∨ r.m_specific ∉ r.m_excluded) := by
  unfold doParse at h
  cases hl : doParseLoop ⟨[], []⟩ (splitTrimmedNoEmpty '@' sv) with
  | error e =>
    rw [hl] at h
    cases h
  | ok res =>
    rw [hl] at h
    dsimp only at h
    split_ifs at h with hc
    injection h with h
    subst h
    refine ⟨doParseLoop_wf _ ⟨[], []⟩ res
      ⟨Or.inl rfl, fun e he => absurd he (List.not_mem_nil e), List.nodup_nil⟩ hl, ?_⟩
    by_cases hsp : res.m_specific = []
    · exact Or.inl hsp
    · right
      intro hmem
      exact hc ⟨fun hie => hsp (List.isEmpty_iff.mp hie),
        by simp [FactNameRequest.excludes, hmem]⟩

/-- Running the entry loop over rendered exclusion entries appends exactly
those names to the excluded list. -/
theorem doParseLoop_excl_entries :
    ∀ (exls : List (List Char)) (res : FactNameRequest),
      (∀ e ∈ exls, validFactName e = true) →
      (∀ e ∈ exls, e ∉ res.m_excluded) →
      exls.Nodup →
      doParseLoop res (exls.map (fun e => '!' :: e))
        = .ok { res with m_excluded := res.m_excluded ++ exls } := by
  intro exls
  induction exls with
  | nil =>
    intro res _ _ _
    show Except.ok res = _
    rw [List.append_nil]
  | cons e exs ih =>
    intro res hv hn hd
    have hve : validFactName e = true := hv e (List.mem_cons_self _ _)
    simp only [List.map_cons, doParseLoop, doParseStep]
    rw [if_pos (show ('!' :: e).head? = some '!' from rfl)]
    have hte : trim (('!' :: e).drop 1) = e :=
      trim_eq_self (fun c hc => validChar_not_ws (validFactName_all hve c hc))
    rw [hte, if_pos hve,
        if_neg (by simp [FactNameRequest.excludes, hn e (List.mem_cons_self _ _)])]
    dsimp only
    rw [ih { res with m_excluded := res.m_excluded ++ [e] }
        (fun x hx => hv x (List.mem_cons_of_mem _ hx))
        (fun x hx hmem => by
          rcases List.mem_append.mp hmem with hm | hm
          · exact hn x (List.mem_cons_of_mem _ hx) hm
          · rw [List.mem_singleton] at hm
            subst hm
            exact (List.nodup_cons.mp hd).1 hx)
        (List.nodup_cons.mp hd).2]
    dsimp only
    rw [List.append_assoc]
    rfl

/-- Splitting the rendered form of a well-formed request recovers its
entries. -/
theorem split_to_string (r : FactNameRequest)
    (hsp : r.m_specific = [] ∨ validFactName r.m_specific = true)
    (hexv : ∀ e ∈ r.m_excluded, validFactName e = true) :
    splitTrimmedNoEmpty '@' (FactNameRequest.to_string r)
      = (if r.m_specific.isEmpty then [] else [r.m_specific])
          ++ r.m_excluded.map (fun e => '!' :: e) := by
  unfold FactNameRequest.to_string
  cases hps : ((if r.m_specific.isEmpty then [] else [r.m_specific])
      ++ r.m_excluded.map (fun e => '!' :: e)) with
  | nil =>
    rfl
  | cons p ps =>
    apply splitTrimmedNoEmpty_joinstr
    · exact List.cons_ne_nil p ps
    · intro q hq
      rw [← hps] at hq
      rcases List.mem_append.mp hq with hq | hq
      · have hie : ¬ (r.m_specific.isEmpty = true) := by
          intro hie
          rw [if_pos hie] at hq
          cases hq
        rw [if_neg hie, List.mem_singleton] at hq
        subst hq
        have hv : validFactName r.m_specific = true :=
          hsp.resolve_left (fun hh => hie (List.isEmpty_iff.mpr hh))
        exact ⟨validFactName_ne_nil hv, fun c hc =>
          ⟨validChar_not_ws (validFactName_all hv c hc),
           validChar_ne_at (validFactName_all hv c hc)⟩⟩
      · obtain ⟨e, he, rfl⟩ := List.mem_map.mp hq
        have hv := hexv e he
        refine ⟨by simp, ?_⟩
        intro c hc
        rcases List.mem_cons.mp hc with rfl | hc
        · exact ⟨by decide, by decide⟩
        · exact ⟨validChar_not_ws (validFactName_all hv c hc),
            validChar_ne_at (validFactName_all hv c hc)⟩

/-- C7: re-parsing the rendering of any successfully parsed factory-name
request yields the same request (same specific request and same excluded
list, hence the same excluded set). -/
theorem factreq_roundtrip :
    ∀ (sv : List Char) (r : FactNameRequest),
      doParse sv = .ok r → doParse (FactNameRequest.to_string r) = .ok r := by
  intro sv r h
  obtain ⟨⟨hsp, hexv, hnd⟩, hdisj⟩ := doParse_wf sv r h
  unfold doParse
  rw [split_to_string r hsp hexv]
  by_cases hspec : r.m_specific = []
  · rw [if_pos (List.isEmpty_iff.mpr hspec), List.nil_append,
        doParseLoop_excl_entries r.m_excluded ⟨[], []⟩ hexv (by simp) hnd]
    dsimp only
    rw [if_neg (fun hcon => hcon.1 rfl)]
    rw [show ({ m_specific := [], m_excluded := [] } : FactNameRequest).m_excluded ++ r.m_excluded
          = r.m_excluded from rfl]
    rw [← hspec]
  · have hv : validFactName r.m_specific = true := hsp.resolve_left hspec
    have hnb : ¬ (r.m_specific.head? = some '!') := by
      cases hsl : r.m_specific with
      | nil => exact absurd hsl hspec
      | cons c t =>
        intro hh
        rw [List.head?_cons] at hh
        injection hh with hh
        subst hh
        exact validChar_ne_bang
          (validFactName_all hv '!' (hsl ▸ List.mem_cons_self _ _)) rfl
    rw [if_neg (fun hh => hspec (List.isEmpty_iff.mp hh)), List.singleton_append]
    simp only [doParseLoop, doParseStep]
    rw [if_neg hnb, if_pos hv, if_neg (fun hh => hh rfl)]
    dsimp only
    rw [doParseLoop_excl_entries r.m_excluded ⟨r.m_specific, []⟩ hexv (by simp) hnd]
    dsimp only
    rw [if_neg (fun hcon =>
      (hdisj.resolve_left hspec) (of_decide_eq_true hcon.2))]
    rfl

/-- Witness for `factreq_roundtrip`: the request parsed from `"a@!b"`
re-parses from its rendering to itself. -/
theorem factreq_roundtrip_witness :
    doParse (FactNameRequest.to_string ⟨['a'], [['b']]⟩) = .ok ⟨['a'], [['b']]⟩ :=
  factreq_roundtrip "a@!b".toList ⟨['a'], [['b']]⟩ (by decide)

end Cfg

end NCrystal
